import Mathlib

/-! Shallow embedding of src/java-memory-horse-analysis.py, a Python
script that inspects running Java processes by invoking external JDK
tools and parsing their text output, and aggregates the results into a
report object.  Each external command invocation is modelled by an
explicit outcome value (timeout of the 30 second limit, an arbitrary
exception, or completion with an exit code and captured standard
output); the pure parsing code is translated line by line from the
source.  Python strings are modelled as List Char, wrapped into String
at record boundaries, and Python dicts as association lists with
insert-or-overwrite semantics that preserve insertion order, matching
dict behaviour. -/

/-- Characters treated as whitespace by Python str.strip and str.split. -/
def isPySpace (c : Char) : Bool :=
  c = ' ' || c = '\t' || c = '\n' || c = '\r' || c = '\x0b' || c = '\x0c'

/-- Python str.strip with no argument: drop whitespace from both ends. -/
def pyStrip (cs : List Char) : List Char :=
  ((cs.dropWhile isPySpace).reverse.dropWhile isPySpace).reverse

/-- Python str.split with a one-character separator: split on every
occurrence, keeping empty fragments (so the result is never empty). -/
def pySplit (sep : Char) : List Char → List (List Char)
  | [] => [[]]
  | c :: cs =>
    if c = sep then [] :: pySplit sep cs
    else
      match pySplit sep cs with
      | [] => [[c]]
      | h :: t => (c :: h) :: t

/-- Python str.split(sep, 1): split on the first occurrence of the
separator only; none when the separator does not occur, which models
the membership test done before the split in the source. -/
def pySplit1 (sep : Char) : List Char → Option (List Char × List Char)
  | [] => none
  | c :: cs =>
    if c = sep then some ([], cs)
    else
      match pySplit1 sep cs with
      | some (a, b) => some (c :: a, b)
      | none => none

/-- Helper of pySplitWs carrying the current token reversed. -/
def pySplitWsAux : List Char → List Char → List (List Char)
  | [], cur => if cur.isEmpty then [] else [cur.reverse]
  | c :: cs, cur =>
    if isPySpace c then
      if cur.isEmpty then pySplitWsAux cs []
      else cur.reverse :: pySplitWsAux cs []
    else pySplitWsAux cs (c :: cur)

/-- Python str.split with no argument: split on runs of whitespace,
discarding empty fragments. -/
def pySplitWs (cs : List Char) : List (List Char) :=
  pySplitWsAux cs []

/-- Python str.join with a single space. -/
def joinSpace : List (List Char) → List Char
  | [] => []
  | [x] => x
  | x :: y :: t => x ++ ' ' :: joinSpace (y :: t)

/-- Python substring membership test (the in operator on strings). -/
def containsSeq (pat : List Char) : List Char → Bool
  | [] => pat.isEmpty
  | c :: cs => pat.isPrefixOf (c :: cs) || containsSeq pat cs

/-- Python dict insertion on an association list: when the key is
already present overwrite its value in place, otherwise append the new
pair, preserving insertion order exactly as dict does. -/
def pyIns {β : Type} : List (String × β) → String → β → List (String × β)
  | [], k, v => [(k, v)]
  | (k0, v0) :: t, k, v =>
    if k0 = k then (k0, v) :: t else (k0, v0) :: pyIns t k v

/-- Outcome of one subprocess.run call in the source: expiry of the 30
second timeout, any other raised exception, or completion with an exit
code and captured standard output. -/
inductive ExecOutcome where
  | timeout
  | exc (msg : String)
  | completed (returncode : Int) (stdout : String)

/-- The pair a jps output line contributes in get_java_processes: the
first whitespace token as process id, the remaining tokens joined by
single spaces as the command. -/
def jpsEntry (line : List Char) : String × String :=
  (⟨(pySplitWs line).headD []⟩, ⟨joinSpace (pySplitWs line).tail⟩)

/-- Loop body of get_java_processes over one line of jps output: skip
falsy (empty) lines and lines with fewer than two tokens, otherwise
insert the entry into the dict. -/
def jpsLineStep (procs : List (String × String)) (line : List Char) :
    List (String × String) :=
  if line.isEmpty then procs
  else if 1 < (pySplitWs line).length then
    pyIns procs (jpsEntry line).1 (jpsEntry line).2
  else procs

/-- Parsing part of get_java_processes: strip the captured output,
split it into lines, and fold the line step over them. -/
def jpsParse (stdout : String) : List (String × String) :=
  (pySplit '\n' (pyStrip stdout.data)).foldl jpsLineStep []

/-- get_java_processes: run jps -v; on a zero exit code parse the
output; on a nonzero exit code, a timeout or an exception return the
empty mapping. -/
def get_java_processes (o : ExecOutcome) : List (String × String) :=
  match o with
  | .completed rc out => if rc = 0 then jpsParse out else []
  | _ => []

/-- The loader marker token of the classloader parser. -/
def clMarker : List Char := "ClassLoader".data

/-- Field-line handling of the classloader parser: strip the line,
split it on every colon, and only when that yields exactly two parts
insert the stripped key and value into the record; otherwise leave the
record unchanged. -/
def clAddField (r : List (String × String)) (line : List Char) :
    List (String × String) :=
  let parts := pySplit ':' (pyStrip line)
  if parts.length = 2 then
    pyIns r ⟨pyStrip (parts.headD [])⟩ ⟨pyStrip (parts.getD 1 [])⟩
  else r

/-- Fresh record started by a marker line: a dict with the single key
type holding the stripped line. -/
def clNewRec (line : List Char) : List (String × String) :=
  [("type", ⟨pyStrip line⟩)]

/-- Main loop of the classloader parser, carrying the accumulated
records and the optional in-progress record; the Python current dict
is empty, hence falsy, exactly when no marker line has been seen. -/
def parseCLAux : List (List Char) → List (List (String × String)) →
    Option (List (String × String)) → List (List (String × String))
  | [], acc, none => acc
  | [], acc, some c => acc ++ [c]
  | line :: rest, acc, cur =>
    if (pyStrip line).isEmpty then parseCLAux rest acc cur
    else if clMarker.isPrefixOf line then
      match cur with
      | some c => parseCLAux rest (acc ++ [c]) (some (clNewRec line))
      | none => parseCLAux rest acc (some (clNewRec line))
    else
      match cur with
      | some c => parseCLAux rest acc (some (clAddField c line))
      | none => parseCLAux rest acc none

/-- The classloader parser on a list of lines. -/
def parseCLLines (lines : List (List Char)) : List (List (String × String)) :=
  parseCLAux lines [] none

/-- parse_classloader_output of the source: split the captured output
on newlines and run the loop. -/
def parse_classloader_output (output : String) :
    List (List (String × String)) :=
  parseCLLines (pySplit '\n' output.data)

/-- analyze_web_components: run jcmd VM.classloaders for one process
and parse its output on a zero exit code; a nonzero exit code, a
timeout or an exception yields the empty list. -/
def analyze_web_components (o : ExecOutcome) :
    List (List (String × String)) :=
  match o with
  | .completed rc out => if rc = 0 then parse_classloader_output out else []
  | _ => []

/-- The record the parser builds from one marker line followed by the
given field lines (blank field lines are no-ops of clAddField). -/
def clRecord (m : List Char) (mids : List (List Char)) :
    List (String × String) :=
  mids.foldl clAddField (clNewRec m)

/-- One parsed thread of the thread dump: the Python dict built in
_parse_thread_dump has exactly the keys name, state (initially None)
and stack. -/
structure ThreadRec where
  name : String
  state : Option String
  stack : List String
deriving DecidableEq

/-- The thread state marker searched for in dump lines. -/
def tdStateMarker : List Char := "java.lang.Thread.State:".data

/-- Thread name extraction from a header line: Python splits the line
on the double quote character and takes element 1, which is the text
between the first pair of quotes, or everything after the first quote
when no second quote exists. -/
def tdName (line : List Char) : String :=
  ⟨(pySplit '"' line).getD 1 []⟩

/-- Header test of the thread dump parser: the raw line starts with a
double quote character. -/
def tdStart (line : List Char) : Bool :=
  List.isPrefixOf ['"'] line

/-- Main loop of _parse_thread_dump, carrying the accumulated threads
and the optional in-progress thread; the Python current dict is empty,
hence falsy, exactly when no header line has been seen. -/
def parseTDAux : List (List Char) → List ThreadRec → Option ThreadRec →
    List ThreadRec
  | [], acc, none => acc
  | [], acc, some c => acc ++ [c]
  | line :: rest, acc, cur =>
    if tdStart line then
      match cur with
      | some c => parseTDAux rest (acc ++ [c]) (some ⟨tdName line, none, []⟩)
      | none => parseTDAux rest acc (some ⟨tdName line, none, []⟩)
    else if containsSeq tdStateMarker line then
      match cur with
      | some c =>
        parseTDAux rest acc
          (some ⟨c.name, some ⟨pyStrip ((pySplit ':' line).getD 1 [])⟩, c.stack⟩)
      | none => parseTDAux rest acc none
    else if "at ".data.isPrefixOf (pyStrip line) then
      match cur with
      | some c =>
        parseTDAux rest acc (some ⟨c.name, c.state, c.stack ++ [⟨pyStrip line⟩]⟩)
      | none => parseTDAux rest acc none
    else parseTDAux rest acc cur

/-- The thread dump parser on a list of lines. -/
def parseTDLines (lines : List (List Char)) : List ThreadRec :=
  parseTDAux lines [] none

/-- parse_thread_dump of the source: split the captured output on
newlines and run the loop. -/
def parse_thread_dump (output : String) : List ThreadRec :=
  parseTDLines (pySplit '\n' output.data)

/-- analyze_threads: run jstack for one process and parse its output
on a zero exit code; a nonzero exit code, a timeout or an exception
yields the empty list. -/
def analyze_threads (o : ExecOutcome) : List ThreadRec :=
  match o with
  | .completed rc out => if rc = 0 then parse_thread_dump out else []
  | _ => []

/-- Loop body of analyze_system_properties over one output line: when
the line contains an equals sign, split on its first occurrence and
insert the stripped key and value into the dict. -/
def propsLineStep (props : List (String × String)) (line : List Char) :
    List (String × String) :=
  match pySplit1 '=' line with
  | some (k, v) => pyIns props ⟨pyStrip k⟩ ⟨pyStrip v⟩
  | none => props

/-- The properties parser on a list of lines. -/
def parsePropsLines (lines : List (List Char)) : List (String × String) :=
  lines.foldl propsLineStep []

/-- analyze_system_properties: run jcmd VM.system_properties for one
process and parse its output lines on a zero exit code; a nonzero exit
code, a timeout or an exception yields the empty mapping. -/
def analyze_system_properties (o : ExecOutcome) : List (String × String) :=
  match o with
  | .completed rc out => if rc = 0 then parsePropsLines (pySplit '\n' out.data) else []
  | _ => []

/-- The stripped key and value contributed by a line that contains an
equals sign, used to state the overwrite behaviour of the properties
parser. -/
def propsKV (line : List Char) : Option (String × String) :=
  match pySplit1 '=' line with
  | some (k, v) => some (⟨pyStrip k⟩, ⟨pyStrip v⟩)
  | none => none

/-- One scanning step shared by the scriptlet counter: drop everything
up to and including the first occurrence of the pattern, none when the
pattern does not occur. -/
def dropToAfter (pat : List Char) : List Char → Option (List Char)
  | [] => if pat.isEmpty then some [] else none
  | c :: cs =>
    if pat.isPrefixOf (c :: cs) then some ((c :: cs).drop pat.length)
    else dropToAfter pat cs

/-- Fuelled scanner counting the lazy non-overlapping matches of the
scriptlet pattern with DOTALL semantics, as re.findall does for the
pattern of _analyze_single_jsp: find the next opening delimiter, then
the earliest closing delimiter at or after the position right behind
it, count one match and continue after it.  Each match consumes at
least one character, so fuel equal to the input length is always
sufficient and the fuel never alters the result. -/
def countScriptletsFuel : Nat → List Char → Nat
  | 0, _ => 0
  | fuel + 1, cs =>
    match dropToAfter "<%".data cs with
    | none => 0
    | some afterOpen =>
      match dropToAfter "%>".data afterOpen with
      | none => 0
      | some afterClose => 1 + countScriptletsFuel fuel afterClose

/-- The scriptlet count computed by _analyze_single_jsp on a file
content: the number of matches of the lazy scriptlet delimiter pattern
spanning newlines. -/
def countScriptlets (content : String) : Nat :=
  countScriptletsFuel content.data.length content.data

/-- JSON-like values, modelling the Python dicts, lists, strings and
None assembled into the report by generate_report. -/
inductive JVal where
  | s (v : String)
  | nullv
  | arr (vs : List JVal)
  | obj (fields : List (String × JVal))

/-- The keys of an object value, in insertion order. -/
def objKeys : JVal → List String
  | .obj fs => fs.map Prod.fst
  | _ => []

/-- Python dict lookup on an association list: the value at the first
(and, for dicts, only) occurrence of the key. -/
def lookupA {β : Type} (k : String) : List (String × β) → Option β
  | [] => none
  | (k1, v) :: t => if k = k1 then some v else lookupA k t

/-- Field access on an object value. -/
def objGet (k : String) : JVal → Option JVal
  | .obj fs => lookupA k fs
  | _ => none

/-- The JSON shape of one parsed thread record. -/
def threadToJVal (t : ThreadRec) : JVal :=
  .obj [("name", .s t.name),
        ("state", match t.state with | none => .nullv | some st => .s st),
        ("stack", .arr (t.stack.map JVal.s))]

/-- The JSON shape of a string-valued dict. -/
def assocToJVal (m : List (String × String)) : JVal :=
  .obj (m.map (fun kv => (kv.1, JVal.s kv.2)))

/-- The environment a report generation run observes: the outcome of
the jps invocation, the outcomes of the three per-process tool
invocations as functions of the process id, and the current time. -/
structure World where
  jps : ExecOutcome
  jcmdClassloaders : String → ExecOutcome
  jstack : String → ExecOutcome
  jcmdProps : String → ExecOutcome
  now : String

/-- The per-process record assembled by generate_report, with exactly
the keys command, web_components, threads and system_properties. -/
def processInfo (w : World) (pid : String) (command : String) : JVal :=
  .obj [("command", .s command),
        ("web_components",
          .arr ((analyze_web_components (w.jcmdClassloaders pid)).map assocToJVal)),
        ("threads", .arr ((analyze_threads (w.jstack pid)).map threadToJVal)),
        ("system_properties",
          assocToJVal (analyze_system_properties (w.jcmdProps pid)))]

/-- generate_report: list the processes, analyse each one, and
assemble the report object with the keys timestamp, processes and
warnings; the optional output path only controls the JSON file write
and never the returned object. -/
def generate_report (w : World) (_outputFile : Option String) : JVal :=
  let procs := get_java_processes w.jps
  let processes :=
    procs.foldl (fun ps pc => pyIns ps pc.1 (processInfo w pc.1 pc.2)) []
  .obj [("timestamp", .s w.now), ("processes", .obj processes),
        ("warnings", .arr [])]

/-- Concrete world used by witnesses: jps succeeds with one output
line, and every per-process tool invocation times out. -/
def wEx : World :=
  ⟨.completed 0 "12345 MainApp", fun _ => .timeout, fun _ => .timeout,
   fun _ => .timeout, "2026-01-01T00:00:00"⟩


/-! Helper lemmas shared by the claim theorems. -/

theorem pyIns_of_not_mem {β : Type} (m : List (String × β)) (k : String)
    (v : β) (h : k ∉ m.map Prod.fst) : pyIns m k v = m ++ [(k, v)] := by
  induction m with
  | nil => rfl
  | cons p t ih =>
    obtain ⟨k1, v1⟩ := p
    simp only [List.map_cons, List.mem_cons] at h
    push_neg at h
    simp only [pyIns]
    rw [if_neg (fun he => h.1 he.symm), ih h.2]
    rfl

theorem lookupA_pyIns {β : Type} (m : List (String × β)) (k k0 : String)
    (v : β) :
    lookupA k (pyIns m k0 v) = if k = k0 then some v else lookupA k m := by
  induction m with
  | nil =>
    by_cases h : k = k0 <;> simp [pyIns, lookupA, h]
  | cons p t ih =>
    obtain ⟨k1, v1⟩ := p
    by_cases h1 : k1 = k0
    · by_cases h : k = k0
      · simp [pyIns, lookupA, h1, h, h.trans h1.symm]
      · have hk1 : ¬ k = k1 := fun he => h (he.trans h1)
        simp [pyIns, lookupA, h1, h, hk1]
    · by_cases h : k = k1
      · have hk0 : ¬ k = k0 := fun he => h1 ((h.symm.trans he).symm ▸ rfl)
        simp [pyIns, lookupA, h1, h, hk0]
      · simp [pyIns, lookupA, h1, h, ih]

theorem lookupA_append {β : Type} (a b : List (String × β)) (k : String) :
    lookupA k (a ++ b) =
      match lookupA k a with
      | some v => some v
      | none => lookupA k b := by
  induction a with
  | nil => simp [lookupA]
  | cons p t ih =>
    obtain ⟨k1, v1⟩ := p
    by_cases h : k = k1
    · simp [lookupA, h]
    · simp only [List.cons_append, lookupA, h, if_false]
      exact ih

theorem pyIns_forall {β : Type} (P : β → Prop) (m : List (String × β))
    (k : String) (v : β) (hm : ∀ x ∈ m, P x.2) (hv : P v) :
    ∀ x ∈ pyIns m k v, P x.2 := by
  induction m with
  | nil => simpa [pyIns] using hv
  | cons p t ih =>
    obtain ⟨k1, v1⟩ := p
    simp only [pyIns]
    by_cases h : k1 = k
    · simp only [h, if_true]
      intro x hx
      rcases List.mem_cons.mp hx with h1 | h1
      · subst h1; exact hv
      · exact hm x (List.mem_cons_of_mem _ h1)
    · simp only [h, if_false]
      intro x hx
      rcases List.mem_cons.mp hx with h1 | h1
      · subst h1; exact hm _ (List.mem_cons_self _ _)
      · exact ih (fun y hy => hm y (List.mem_cons_of_mem _ hy)) x h1

theorem pyStrip_isEmpty_all (l : List Char)
    (h : (pyStrip l).isEmpty = true) : ∀ c ∈ l, isPySpace c = true := by
  intro c hc
  unfold pyStrip at h
  rw [List.isEmpty_iff, List.reverse_eq_nil_iff, List.dropWhile_eq_nil_iff] at h
  have hsplit : l.takeWhile isPySpace ++ l.dropWhile isPySpace = l :=
    List.takeWhile_append_dropWhile (p := isPySpace) (l := l)
  rw [← hsplit] at hc
  rcases List.mem_append.mp hc with h1 | h1
  · exact List.mem_takeWhile_imp h1
  · exact h c (List.mem_reverse.mpr h1)

theorem prefix_strip_nonEmpty (pat l : List Char) (c0 : Char)
    (hpat : c0 ∈ pat) (hc0 : isPySpace c0 = false)
    (h : pat.isPrefixOf l = true) : (pyStrip l).isEmpty = false := by
  have hpre : pat <+: l := by rwa [← List.isPrefixOf_iff_prefix]
  obtain ⟨t, ht⟩ := hpre
  cases hb : (pyStrip l).isEmpty
  · rfl
  · exfalso
    have hmem : c0 ∈ l := by rw [← ht]; exact List.mem_append_left _ hpat
    have := pyStrip_isEmpty_all l hb c0 hmem
    rw [hc0] at this
    exact Bool.false_ne_true this

theorem parseCLAux_acc (ls : List (List Char)) :
    ∀ (acc : List (List (String × String)))
      (cur : Option (List (String × String))),
    parseCLAux ls acc cur = acc ++ parseCLAux ls [] cur := by
  induction ls with
  | nil =>
    intro acc cur
    cases cur <;> simp [parseCLAux]
  | cons l tl ih =>
    intro acc cur
    by_cases h1 : (pyStrip l).isEmpty
    · rw [show parseCLAux (l :: tl) acc cur = parseCLAux tl acc cur from by
        simp [parseCLAux, h1]]
      rw [show parseCLAux (l :: tl) [] cur = parseCLAux tl [] cur from by
        simp [parseCLAux, h1]]
      exact ih acc cur
    · by_cases h2 : clMarker.isPrefixOf l
      · cases cur with
        | none =>
          rw [show parseCLAux (l :: tl) acc none =
                parseCLAux tl acc (some (clNewRec l)) from by
            simp [parseCLAux, h1, h2]]
          rw [show parseCLAux (l :: tl) [] none =
                parseCLAux tl [] (some (clNewRec l)) from by
            simp [parseCLAux, h1, h2]]
          exact ih acc _
        | some c =>
          rw [show parseCLAux (l :: tl) acc (some c) =
                parseCLAux tl (acc ++ [c]) (some (clNewRec l)) from by
            simp [parseCLAux, h1, h2]]
          rw [show parseCLAux (l :: tl) [] (some c) =
                parseCLAux tl [c] (some (clNewRec l)) from by
            simp [parseCLAux, h1, h2]]
          rw [ih (acc ++ [c]), ih [c]]
          simp
      · cases cur with
        | none =>
          rw [show parseCLAux (l :: tl) acc none = parseCLAux tl acc none from by
            simp [parseCLAux, h1, h2]]
          rw [show parseCLAux (l :: tl) [] none = parseCLAux tl [] none from by
            simp [parseCLAux, h1, h2]]
          exact ih acc none
        | some c =>
          rw [show parseCLAux (l :: tl) acc (some c) =
                parseCLAux tl acc (some (clAddField c l)) from by
            simp [parseCLAux, h1, h2]]
          rw [show parseCLAux (l :: tl) [] (some c) =
                parseCLAux tl [] (some (clAddField c l)) from by
            simp [parseCLAux, h1, h2]]
          exact ih acc _

theorem clAddField_blank (c : List (String × String)) (l : List Char)
    (h : (pyStrip l).isEmpty = true) : clAddField c l = c := by
  have he : pyStrip l = [] := by
    cases hp : pyStrip l
    · rfl
    · rw [hp] at h; simp [List.isEmpty] at h
  simp [clAddField, he, pySplit]

theorem parseCLAux_fields (mids : List (List Char)) :
    ∀ (rest : List (List Char)) (c : List (String × String)),
    (∀ l ∈ mids, clMarker.isPrefixOf l = false) →
    parseCLAux (mids ++ rest) [] (some c) =
      parseCLAux rest [] (some (mids.foldl clAddField c)) := by
  induction mids with
  | nil => intro rest c _; rfl
  | cons l tl ih =>
    intro rest c hm
    have hl : clMarker.isPrefixOf l = false := hm l (List.mem_cons_self _ _)
    by_cases h1 : (pyStrip l).isEmpty
    · rw [show parseCLAux ((l :: tl) ++ rest) [] (some c) =
            parseCLAux (tl ++ rest) [] (some c) from by
        simp [parseCLAux, h1]]
      rw [List.foldl_cons, clAddField_blank c l h1]
      exact ih rest c fun x hx => hm x (List.mem_cons_of_mem _ hx)
    · rw [show parseCLAux ((l :: tl) ++ rest) [] (some c) =
            parseCLAux (tl ++ rest) [] (some (clAddField c l)) from by
        simp [parseCLAux, h1, hl]]
      rw [List.foldl_cons]
      exact ih rest _ fun x hx => hm x (List.mem_cons_of_mem _ hx)

theorem parseCLAux_skip (p : List (List Char)) :
    ∀ (ls : List (List Char)),
    (∀ l ∈ p, clMarker.isPrefixOf l = false) →
    parseCLAux (p ++ ls) [] none = parseCLAux ls [] none := by
  induction p with
  | nil => intro ls _; rfl
  | cons l tl ih =>
    intro ls hp
    have hl : clMarker.isPrefixOf l = false := hp l (List.mem_cons_self _ _)
    by_cases h1 : (pyStrip l).isEmpty
    · rw [show parseCLAux ((l :: tl) ++ ls) [] none =
            parseCLAux (tl ++ ls) [] none from by simp [parseCLAux, h1]]
      exact ih ls fun x hx => hp x (List.mem_cons_of_mem _ hx)
    · rw [show parseCLAux ((l :: tl) ++ ls) [] none =
            parseCLAux (tl ++ ls) [] none from by simp [parseCLAux, h1, hl]]
      exact ih ls fun x hx => hp x (List.mem_cons_of_mem _ hx)

theorem parseCLAux_length (ls : List (List Char)) :
    ∀ (acc : List (List (String × String)))
      (cur : Option (List (String × String))),
    (parseCLAux ls acc cur).length =
      acc.length + (match cur with | some _ => 1 | none => 0) +
        (ls.filter fun l => clMarker.isPrefixOf l).length := by
  induction ls with
  | nil => intro acc cur; cases cur <;> simp [parseCLAux]
  | cons l tl ih =>
    intro acc cur
    by_cases h1 : (pyStrip l).isEmpty
    · have hl : clMarker.isPrefixOf l = false := by
        cases hb : clMarker.isPrefixOf l
        · rfl
        · exfalso
          have hne := prefix_strip_nonEmpty clMarker l 'C' (by decide)
            (by decide) hb
          rw [hne] at h1
          exact Bool.false_ne_true h1
      rw [show parseCLAux (l :: tl) acc cur = parseCLAux tl acc cur from by
        simp [parseCLAux, h1]]
      rw [List.filter_cons, if_neg (by simp [hl])]
      exact ih acc cur
    · cases hb : clMarker.isPrefixOf l
      · rw [List.filter_cons, if_neg (by simp [hb])]
        cases cur with
        | none =>
          rw [show parseCLAux (l :: tl) acc none = parseCLAux tl acc none from by
            simp [parseCLAux, h1, hb]]
          exact ih acc none
        | some c =>
          rw [show parseCLAux (l :: tl) acc (some c) =
                parseCLAux tl acc (some (clAddField c l)) from by
            simp [parseCLAux, h1, hb]]
          exact ih acc _
      · rw [List.filter_cons, if_pos (by simp [hb])]
        cases cur with
        | none =>
          rw [show parseCLAux (l :: tl) acc none =
                parseCLAux tl acc (some (clNewRec l)) from by
            simp [parseCLAux, h1, hb]]
          rw [ih acc _]
          simp only [List.length_cons]
          omega
        | some c =>
          rw [show parseCLAux (l :: tl) acc (some c) =
                parseCLAux tl (acc ++ [c]) (some (clNewRec l)) from by
            simp [parseCLAux, h1, hb]]
          rw [ih _ _]
          simp only [List.length_append, List.length_cons, List.length_nil]
          omega

theorem parseTDAux_skip (p : List (List Char)) :
    ∀ (ls : List (List Char)),
    (∀ l ∈ p, tdStart l = false) →
    parseTDAux (p ++ ls) [] none = parseTDAux ls [] none := by
  induction p with
  | nil => intro ls _; rfl
  | cons l tl ih =>
    intro ls hp
    have hl : tdStart l = false := hp l (List.mem_cons_self _ _)
    have hstep : parseTDAux ((l :: tl) ++ ls) [] none =
        parseTDAux (tl ++ ls) [] none := by
      by_cases h2 : containsSeq tdStateMarker l
      · simp [parseTDAux, hl, h2]
      · by_cases h3 : "at ".data.isPrefixOf (pyStrip l)
        · simp [parseTDAux, hl, h2, h3]
        · simp [parseTDAux, hl, h2, h3]
    rw [hstep]
    exact ih ls fun x hx => hp x (List.mem_cons_of_mem _ hx)

theorem pySplit_ne_nil (sep : Char) (cs : List Char) : pySplit sep cs ≠ [] := by
  cases cs with
  | nil => simp [pySplit]
  | cons c t =>
    by_cases h : c = sep
    · simp [pySplit, h]
    · simp only [pySplit, h, if_false]
      cases hp : pySplit sep t <;> simp

theorem pySplit_no_sep (sep : Char) (cs : List Char) (h : sep ∉ cs) :
    pySplit sep cs = [cs] := by
  induction cs with
  | nil => rfl
  | cons c t ih =>
    simp only [List.mem_cons] at h
    push_neg at h
    have h1 : ¬ c = sep := fun he => h.1 he.symm
    simp only [pySplit, h1, if_false]
    rw [ih h.2]

theorem pySplit_append_sep (sep : Char) (a b : List Char) (h : sep ∉ a) :
    pySplit sep (a ++ sep :: b) = a :: pySplit sep b := by
  induction a with
  | nil => simp [pySplit]
  | cons c t ih =>
    simp only [List.mem_cons] at h
    push_neg at h
    have h1 : ¬ c = sep := fun he => h.1 he.symm
    simp only [List.cons_append, pySplit, h1, if_false, List.append_eq]
    rw [ih h.2]

theorem tdName_between_quotes (a b : List Char) (h : ('"' : Char) ∉ a) :
    tdName ('"' :: (a ++ '"' :: b)) = ⟨a⟩ := by
  unfold tdName
  rw [show pySplit '"' ('"' :: (a ++ '"' :: b)) =
        [] :: pySplit '"' (a ++ '"' :: b) from by simp [pySplit]]
  rw [pySplit_append_sep '"' a b h]
  rfl

theorem tdName_no_close (a : List Char) (h : ('"' : Char) ∉ a) :
    tdName ('"' :: a) = ⟨a⟩ := by
  unfold tdName
  rw [show pySplit '"' ('"' :: a) = [] :: pySplit '"' a from by simp [pySplit]]
  rw [pySplit_no_sep '"' a h]
  rfl

theorem jps_fold_eq (lines : List (List Char)) :
    ∀ (acc : List (String × String)),
    (∀ l ∈ lines, l.isEmpty = false → 1 < (pySplitWs l).length) →
    (acc.map Prod.fst ++
      ((lines.filter fun l => !l.isEmpty).map fun l => (jpsEntry l).1)).Nodup →
    lines.foldl jpsLineStep acc =
      acc ++ (lines.filter fun l => !l.isEmpty).map jpsEntry := by
  induction lines with
  | nil => intro acc _ _; simp
  | cons l tl ih =>
    intro acc hwf hnd
    cases hl : l.isEmpty
    · have hlen := hwf l (List.mem_cons_self _ _) hl
      have hfil : ((l :: tl).filter fun x => !x.isEmpty) =
          l :: tl.filter fun x => !x.isEmpty := by
        simp [List.filter_cons, hl]
      have hstep : jpsLineStep acc l =
          pyIns acc (jpsEntry l).1 (jpsEntry l).2 := by
        simp [jpsLineStep, hl, hlen]
      rw [hfil, List.map_cons] at hnd
      have hnotin : (jpsEntry l).1 ∉ acc.map Prod.fst := by
        rcases List.nodup_append.mp hnd with ⟨_, _, hdisj⟩
        intro hmem
        exact hdisj hmem (List.mem_cons_self _ _)
      have hins : pyIns acc (jpsEntry l).1 (jpsEntry l).2 =
          acc ++ [jpsEntry l] := by
        rw [pyIns_of_not_mem acc (jpsEntry l).1 (jpsEntry l).2 hnotin]
      have hnd2 : ((acc ++ [jpsEntry l]).map Prod.fst ++
          ((tl.filter fun x => !x.isEmpty).map fun x => (jpsEntry x).1)).Nodup := by
        rw [List.map_append]
        rw [List.append_assoc]
        simpa using hnd
      rw [List.foldl_cons, hstep, hins,
        ih (acc ++ [jpsEntry l])
          (fun x hx hh => hwf x (List.mem_cons_of_mem _ hx) hh) hnd2]
      rw [hfil, List.map_cons]
      simp
    · have hstep : jpsLineStep acc l = acc := by simp [jpsLineStep, hl]
      have hfil : ((l :: tl).filter fun x => !x.isEmpty) =
          tl.filter fun x => !x.isEmpty := by
        simp [List.filter_cons, hl]
      rw [List.foldl_cons, hstep, hfil]
      rw [hfil] at hnd
      exact ih acc (fun x hx hh => hwf x (List.mem_cons_of_mem _ hx) hh) hnd

theorem props_fold_lookup (lines : List (List Char)) :
    ∀ (m : List (String × String)) (k : String),
    lookupA k (lines.foldl propsLineStep m) =
      match lookupA k (lines.filterMap propsKV).reverse with
      | some v => some v
      | none => lookupA k m := by
  induction lines with
  | nil => intro m k; simp [lookupA]
  | cons l tl ih =>
    intro m k
    rw [List.foldl_cons]
    cases hkv : pySplit1 '=' l with
    | none =>
      have hstep : propsLineStep m l = m := by simp [propsLineStep, hkv]
      have hkv2 : propsKV l = none := by simp [propsKV, hkv]
      rw [hstep, ih m k]
      simp [List.filterMap_cons, hkv2]
    | some kv =>
      obtain ⟨a, b⟩ := kv
      have hstep : propsLineStep m l = pyIns m ⟨pyStrip a⟩ ⟨pyStrip b⟩ := by
        simp [propsLineStep, hkv]
      have hkv2 : propsKV l = some (⟨pyStrip a⟩, ⟨pyStrip b⟩) := by
        simp [propsKV, hkv]
      rw [hstep, ih _ k]
      rw [show (List.filterMap propsKV (l :: tl)).reverse =
            (tl.filterMap propsKV).reverse ++ [(⟨pyStrip a⟩, ⟨pyStrip b⟩)] from by
        simp [List.filterMap_cons, hkv2]]
      rw [lookupA_append, lookupA_pyIns]
      cases hA : lookupA k (tl.filterMap propsKV).reverse
      · by_cases hk : k = (⟨pyStrip a⟩ : String) <;> simp [lookupA, hk]
      · simp

/-! Claim theorems. -/

/-- C1: for every external tool invocation that times out, raises an
exception, or exits with a nonzero code, the component returns its
declared empty value (empty mapping for get_java_processes and
analyze_system_properties, empty list for analyze_web_components and
analyze_threads), and no exception propagates (the embedded functions
are total on every outcome). -/
theorem c1_failures_yield_empty (o : ExecOutcome)
    (h : o = ExecOutcome.timeout ∨ (∃ m, o = ExecOutcome.exc m) ∨
      ∃ rc out, o = ExecOutcome.completed rc out ∧ rc ≠ 0) :
    get_java_processes o = [] ∧ analyze_web_components o = [] ∧
      analyze_threads o = [] ∧ analyze_system_properties o = [] := by
  rcases h with h | ⟨m, h⟩ | ⟨rc, out, h, hrc⟩
  · subst h; exact ⟨rfl, rfl, rfl, rfl⟩
  · subst h; exact ⟨rfl, rfl, rfl, rfl⟩
  · subst h
    simp [get_java_processes, analyze_web_components, analyze_threads,
      analyze_system_properties, hrc]

/-- Witness for C1 at a completed invocation with exit code 1. -/
theorem c1_witness :
    get_java_processes (ExecOutcome.completed 1 "12345 MainApp") = [] ∧
    analyze_web_components (ExecOutcome.completed 1 "12345 MainApp") = [] ∧
    analyze_threads (ExecOutcome.completed 1 "12345 MainApp") = [] ∧
    analyze_system_properties (ExecOutcome.completed 1 "12345 MainApp") = [] :=
  c1_failures_yield_empty _
    (Or.inr (Or.inr ⟨1, "12345 MainApp", rfl, by decide⟩))

/-- C3: for every process-listing output whose lines are well formed
(every non-empty line has at least two whitespace tokens, and the first
tokens of the non-empty lines are pairwise distinct, as process ids
are), the mapping returned by get_java_processes has exactly one entry
per non-empty input line, keyed by the first whitespace token of the
line, with the remaining tokens joined by single spaces as the value. -/
theorem c3_jps_mapping (out : String)
    (hwf : ∀ l ∈ pySplit '\n' (pyStrip out.data), l.isEmpty = false →
      1 < (pySplitWs l).length)
    (hnd : (((pySplit '\n' (pyStrip out.data)).filter
      fun l => !l.isEmpty).map fun l => (jpsEntry l).1).Nodup) :
    get_java_processes (ExecOutcome.completed 0 out) =
      ((pySplit '\n' (pyStrip out.data)).filter fun l => !l.isEmpty).map
        jpsEntry := by
  have h0 : get_java_processes (ExecOutcome.completed 0 out) = jpsParse out := by
    simp [get_java_processes]
  rw [h0]
  unfold jpsParse
  rw [jps_fold_eq _ [] hwf (by simpa using hnd)]
  simp

/-- Witness for C3 on a two-line listing. -/
theorem c3_witness :
    get_java_processes
        (ExecOutcome.completed 0 "  12345 MyApp -Xmx512m\n67890 Other") =
      [("12345", "MyApp -Xmx512m"), ("67890", "Other")] := by
  rw [c3_jps_mapping _ (by decide) (by decide)]
  rfl

/-- C5: in system-properties parsing every line containing an equals
sign is split on its first occurrence into key and value, both
stripped, with later duplicate keys overwriting earlier ones: looking
up a key in the parsed mapping finds the value of the last contributing
line, and the two sample lines produce exactly the claimed mapping. -/
theorem c5_props_first_split_overwrite :
    (∀ (lines : List (List Char)) (k : String),
      lookupA k (parsePropsLines lines) =
        lookupA k (lines.filterMap propsKV).reverse) ∧
    analyze_system_properties (ExecOutcome.completed 0 "a.b=1\nc=x=y") =
      [("a.b", "1"), ("c", "x=y")] := by
  constructor
  · intro lines k
    unfold parsePropsLines
    rw [props_fold_lookup lines [] k]
    cases lookupA k (lines.filterMap propsKV).reverse <;> simp [lookupA]
  · decide

/-- C6: the JSP scriptlet count is the number of non-overlapping,
newline-spanning, minimal matches of the scriptlet delimiter pattern:
the sample content yields 2, content with no delimiter pairs yields 0,
an unterminated opening delimiter contributes 0, and a match may span
a newline. -/
theorem c6_scriptlet_count :
    countScriptlets "<% int x=1; %>text<% y++; %>" = 2 ∧
    countScriptlets "plain text with no tags" = 0 ∧
    countScriptlets "before <% int x=1; " = 0 ∧
    countScriptlets "<% a\nb %>" = 1 := by
  refine ⟨by decide, by decide, by decide, by decide⟩

/-- C8: for every invocation of generate_report, whatever the outcomes
of the process listing and the per-process analyses, the warnings list
of the returned report is the empty list. -/
theorem c8_warnings_always_empty (w : World) (o : Option String) :
    objGet "warnings" (generate_report w o) = some (JVal.arr []) := rfl

/-- C2 counterexample: the claim says every key colon value line is
split on the first colon and added to the current record; but on the
field line url colon http colon-slash-slash x, which contains a second
colon inside its value, the parser adds nothing, because the source
splits on every colon and only accepts lines yielding exactly two
parts. -/
theorem c2_counterexample :
    parse_classloader_output "ClassLoader Data for App\nurl: http://x" =
      [[("type", "ClassLoader Data for App")]] ∧
    lookupA "url"
      ((parse_classloader_output
        "ClassLoader Data for App\nurl: http://x").headD []) = none := by
  refine ⟨by decide, by decide⟩

/-- C2 (amended): a line beginning with the loader marker starts a new
record, flushing any in-progress record first; a subsequent field line
whose stripped form splits on colons into exactly two parts adds that
field, with key and value stripped, while field lines with no colon or
more than one colon are silently skipped; a trailing in-progress record
is flushed at end of input.  In particular every accepted field line
between two marker lines attaches to the record started by the
preceding marker. -/
theorem c2_amended_fields (m m' : List Char) (mids rest : List (List Char))
    (hm : clMarker.isPrefixOf m = true) (hm' : clMarker.isPrefixOf m' = true)
    (hmids : ∀ l ∈ mids, clMarker.isPrefixOf l = false) :
    parseCLLines (m :: (mids ++ m' :: rest)) =
      clRecord m mids :: parseCLLines (m' :: rest) ∧
    parseCLLines (m :: mids) = [clRecord m mids] := by
  have hne : (pyStrip m).isEmpty = false :=
    prefix_strip_nonEmpty clMarker m 'C' (by decide) (by decide) hm
  have hne2 : (pyStrip m').isEmpty = false :=
    prefix_strip_nonEmpty clMarker m' 'C' (by decide) (by decide) hm'
  constructor
  · unfold parseCLLines
    rw [show parseCLAux (m :: (mids ++ m' :: rest)) [] none =
          parseCLAux (mids ++ m' :: rest) [] (some (clNewRec m)) from by
      simp [parseCLAux, hne, hm]]
    rw [parseCLAux_fields mids (m' :: rest) (clNewRec m) hmids]
    rw [show parseCLAux (m' :: rest) []
          (some (mids.foldl clAddField (clNewRec m))) =
        parseCLAux rest [mids.foldl clAddField (clNewRec m)]
          (some (clNewRec m')) from by
      simp [parseCLAux, hne2, hm']]
    rw [parseCLAux_acc rest]
    rw [show parseCLAux (m' :: rest) [] none =
          parseCLAux rest [] (some (clNewRec m')) from by
      simp [parseCLAux, hne2, hm']]
    rfl
  · unfold parseCLLines
    rw [show parseCLAux (m :: mids) [] none =
          parseCLAux mids [] (some (clNewRec m)) from by
      simp [parseCLAux, hne, hm]]
    have hf := parseCLAux_fields mids [] (clNewRec m) hmids
    rw [List.append_nil] at hf
    rw [hf]
    rfl

/-- Witness for C2 (amended): a one-colon field line attaches to the
record of the preceding marker, a two-colon field line is skipped, and
the second marker starts a fresh record. -/
theorem c2_amended_witness :
    parseCLLines ["ClassLoader A".data, "parent: none".data,
        "count: 3:4".data, "ClassLoader B".data] =
      [[("type", "ClassLoader A"), ("parent", "none")],
       [("type", "ClassLoader B")]] := by
  have h := (c2_amended_fields "ClassLoader A".data "ClassLoader B".data
    ["parent: none".data, "count: 3:4".data] [] (by decide) (by decide)
    (by decide)).1
  simp only [List.cons_append, List.nil_append] at h
  rw [h]
  decide

/-- C4: on the sample thread dump the first parsed record has name
main, state RUNNABLE and a stack of exactly the two at-lines in input
order; and in general a header line starting with a quote character
yields a record whose name is the text between the first pair of quote
characters. -/
theorem c4_thread_dump (a b : List Char) (ha : ('"' : Char) ∉ a) :
    parse_thread_dump "\"main\" prio=5 tid=0x1\n   java.lang.Thread.State: RUNNABLE\n\tat a.b.c(X.java)\n\tat d.e.f(Y.java)\n\"main2\" prio=5" =
      [⟨"main", some "RUNNABLE", ["at a.b.c(X.java)", "at d.e.f(Y.java)"]⟩,
       ⟨"main2", none, []⟩] ∧
    tdName ('"' :: (a ++ '"' :: b)) = ⟨a⟩ :=
  ⟨by decide, tdName_between_quotes a b ha⟩

/-- Witness for C4 at a concrete header line. -/
theorem c4_witness :
    parse_thread_dump "\"main\" prio=5 tid=0x1\n   java.lang.Thread.State: RUNNABLE\n\tat a.b.c(X.java)\n\tat d.e.f(Y.java)\n\"main2\" prio=5" =
      [⟨"main", some "RUNNABLE", ["at a.b.c(X.java)", "at d.e.f(Y.java)"]⟩,
       ⟨"main2", none, []⟩] ∧
    tdName ('"' :: ("worker".data ++ '"' :: " prio=1".data)) = "worker" :=
  c4_thread_dump "worker".data " prio=1".data (by decide)

/-- C9: a field line appearing before the first marker line attaches
to no record and is silently discarded, and the returned list contains
exactly one record per marker line of the input, so only records
started by a marker. -/
theorem c9_discard_before_marker (p ls : List (List Char))
    (hp : ∀ l ∈ p, clMarker.isPrefixOf l = false) :
    parseCLLines (p ++ ls) = parseCLLines ls ∧
    ∀ ls2 : List (List Char), (parseCLLines ls2).length =
      (ls2.filter fun l => clMarker.isPrefixOf l).length := by
  constructor
  · exact parseCLAux_skip p ls hp
  · intro ls2
    unfold parseCLLines
    rw [parseCLAux_length ls2 [] none]
    simp

/-- Witness for C9 with one leading field line. -/
theorem c9_witness :
    parseCLLines (["info: x".data] ++
        ["ClassLoader A".data, "k: v".data]) =
      parseCLLines ["ClassLoader A".data, "k: v".data] ∧
    (parseCLLines ["info: x".data, "ClassLoader A".data, "k: v".data]).length
      = 1 := by
  have h := c9_discard_before_marker ["info: x".data]
    ["ClassLoader A".data, "k: v".data] (by decide)
  refine ⟨h.1, ?_⟩
  rw [h.2 ["info: x".data, "ClassLoader A".data, "k: v".data]]
  decide

/-- C10: the thread dump parser is total on every input: a state line
or an at-line occurring before the first quote-prefixed header is
ignored, the name extraction on a header line is always well defined
because splitting a quote-prefixed line on quotes yields at least two
parts, and a header line with no closing quote still yields a record
whose name is the whole text after the first quote. -/
theorem c10_parser_total (p ls : List (List Char)) (t a : List Char)
    (hp : ∀ l ∈ p, tdStart l = false) (ha : ('"' : Char) ∉ a) :
    parseTDLines (p ++ ls) = parseTDLines ls ∧
    2 ≤ (pySplit '"' ('"' :: t)).length ∧
    parseTDLines [('"' :: a)] = [⟨(⟨a⟩ : String), none, []⟩] := by
  refine ⟨parseTDAux_skip p ls hp, ?_, ?_⟩
  · rw [show pySplit '"' ('"' :: t) = [] :: pySplit '"' t from by
      simp [pySplit]]
    cases hq : pySplit '"' t
    · exact absurd hq (pySplit_ne_nil '"' t)
    · simp
  · have hstart : tdStart ('"' :: a) = true := by
      simp [tdStart, List.isPrefixOf]
    unfold parseTDLines
    rw [show parseTDAux [('"' :: a)] [] none =
          parseTDAux [] [] (some ⟨tdName ('"' :: a), none, []⟩) from by
      simp [parseTDAux, hstart]]
    rw [tdName_no_close a ha]
    rfl

/-- Witness for C10: a state line and an at-line before the first
header are ignored, and a header with no closing quote yields the
record with the remaining text as name. -/
theorem c10_witness :
    parseTDLines (["   java.lang.Thread.State: RUNNABLE".data,
        "\tat a.b(C.java)".data] ++ ["\"w\" x".data]) =
      parseTDLines ["\"w\" x".data] ∧
    2 ≤ (pySplit '"' ('"' :: "abc\" tail".data)).length ∧
    parseTDLines [('"' :: "worker-1".data)] = [⟨"worker-1", none, []⟩] :=
  c10_parser_total _ _ "abc\" tail".data "worker-1".data (by decide)
    (by decide)

/-- C7: generate_report always returns the in-memory report object,
independent of the optional output path, and the returned report has
exactly the top-level keys timestamp, processes and warnings, where
every entry of processes carries a record with exactly the keys
command, web_components, threads and system_properties. -/
theorem c7_report_shape (w : World) (o : Option String) :
    generate_report w o = generate_report w none ∧
    objKeys (generate_report w o) = ["timestamp", "processes", "warnings"] ∧
    ∀ ps, objGet "processes" (generate_report w o) = some (JVal.obj ps) →
      ∀ kv ∈ ps, objKeys kv.2 =
        ["command", "web_components", "threads", "system_properties"] := by
  refine ⟨rfl, rfl, ?_⟩
  intro ps hps kv hkv
  have h2 : JVal.obj ((get_java_processes w.jps).foldl
      (fun acc pc => pyIns acc pc.1 (processInfo w pc.1 pc.2)) []) =
      JVal.obj ps := Option.some.inj hps
  have h3 := JVal.obj.inj h2
  rw [← h3] at hkv
  have hinv : ∀ (procs : List (String × String)) (acc : List (String × JVal)),
      (∀ x ∈ acc, objKeys x.2 =
        ["command", "web_components", "threads", "system_properties"]) →
      ∀ x ∈ procs.foldl
        (fun acc2 pc => pyIns acc2 pc.1 (processInfo w pc.1 pc.2)) acc,
      objKeys x.2 =
        ["command", "web_components", "threads", "system_properties"] := by
    intro procs
    induction procs with
    | nil => intro acc hacc; exact hacc
    | cons pc tl ih =>
      intro acc hacc
      rw [List.foldl_cons]
      exact ih _ (pyIns_forall
        (fun v => objKeys v =
          ["command", "web_components", "threads", "system_properties"])
        acc pc.1 (processInfo w pc.1 pc.2) hacc rfl)
  exact hinv (get_java_processes w.jps) [] (by simp) kv hkv

/-- Witness for C7 at a concrete world with one discovered process. -/
theorem c7_witness :
    objKeys (generate_report wEx (some "out.json")) =
      ["timestamp", "processes", "warnings"] ∧
    objKeys (processInfo wEx "12345" "MainApp") =
      ["command", "web_components", "threads", "system_properties"] := by
  refine ⟨(c7_report_shape wEx (some "out.json")).2.1, ?_⟩
  exact (c7_report_shape wEx (some "out.json")).2.2
    [("12345", processInfo wEx "12345" "MainApp")] rfl
    ("12345", processInfo wEx "12345" "MainApp") (List.mem_singleton.mpr rfl)
